import Mathlib

/-!
# HappyStore — a shallow embedding of `src/happystore.py`

HappyStore is a sqlite-backed ordered key-value store (`happystore.py`,
class `_SqlLiteHappyStore`).  The embedding below models:

* the sqlite table `database (key TEXT PRIMARY KEY, value BLOB)` as an
  association list `Store V` kept strictly sorted by key.  SQLite compares
  TEXT values by memcmp over their UTF-8 encodings, and UTF-8 byte order
  agrees with code-point order, so the table's key order is the
  code-point-lexicographic order `keyLtb` defined below;
* the `_get_impl` / `_set_impl` / `_has_impl` / `_delete_impl` /
  `_bulk_get_impl` / `_bulk_set_impl` / `_query_impl` methods, each as a
  function on that table;
* SQLite's `LIKE` operator (used by the prefix branch of `_query_impl`)
  including its ASCII case folding and its `%` / `_` wildcards;
* the `scan` generator as a fuel-indexed loop (`scan` contains an
  unbounded `while True:` loop, so the embedding exposes the fuel);
* the sqlite transaction substrate (BEGIN EXCLUSIVE / COMMIT / ROLLBACK /
  SAVEPOINT / RELEASE / ROLLBACK TO, with sqlite's savepoint-stack
  semantics) together with the `transaction` context manager and
  `_ensure_execution_in_txn`, driven by a small deep embedding of client
  transaction scripts (`Prog`).

Python exceptions are modelled by the `PyErr` type; fallible code returns
`Except PyErr _`.
-/

namespace HappyStore

/-- Python exception values that the engine can raise. -/
inductive PyErr : Type
  | lookupError (key : String)
  | operationalError
  | unboundLocalError
  | indexError
  | serializationError
  | deserializationError
  | nameError
  | valueError
  deriving DecidableEq, Repr

/-- SQLite compares TEXT values by memcmp over their UTF-8 encodings, and
UTF-8 byte order agrees with Unicode code-point order, so the table's key
order is the code-point-lexicographic order on the characters.  `keyLtb`
is that strict order, written structurally so that it reduces in the
kernel. -/
def keyLtb : List Char → List Char → Bool
  | [], [] => false
  | [], _ :: _ => true
  | _ :: _, [] => false
  | a :: as, b :: bs => if a = b then keyLtb as bs else decide (a < b)

/-- The matching total order: `a ≤ b` iff not `b < a`. -/
def keyLeb (a b : List Char) : Bool := !(keyLtb b a)

/-- SQLite's `key1 < key2` on strings. -/
def sKeyLt (a b : String) : Bool := keyLtb a.data b.data

/-- SQLite's `key1 <= key2` on strings (used by the `key >= ?` and
`key <= ?` WHERE clauses, arguments in the appropriate order). -/
def sKeyLe (a b : String) : Bool := keyLeb a.data b.data

/-- The sqlite table `database (key TEXT PRIMARY KEY, value BLOB)`,
represented as an association list strictly sorted by key (the PRIMARY KEY
makes keys unique; sqlite stores and scans them in key order). -/
abbrev Store (V : Type) := List (String × V)

/-- The representation invariant of `Store`: strictly ascending keys. -/
def StoreSorted {V : Type} (s : Store V) : Prop :=
  s.Pairwise (fun a b => sKeyLt a.1 b.1 = true)

/-- `REPLACE INTO database VALUES (?, ?)` for a single row: insert the
pair at its sorted position, overwriting an existing binding of the same
key (`_set_impl`). -/
def insertSorted {V : Type} (k : String) (v : V) : Store V → Store V
  | [] => [(k, v)]
  | (k', v') :: t =>
    if sKeyLt k k' then (k, v) :: (k', v') :: t
    else if k = k' then (k, v) :: t
    else (k', v') :: insertSorted k v t

/-- `SELECT value FROM database WHERE key = ?`: the value bound to `k`,
if any. -/
def selectValue {V : Type} (s : Store V) (k : String) : Option V :=
  match s.find? (fun e => e.1 == k) with
  | some e => some e.2
  | none => none

/-- `_get_impl`: return the value bytes, or raise `LookupError(key)` when
the SELECT produced no row. -/
def get_impl {V : Type} (s : Store V) (k : String) : Except PyErr V :=
  match selectValue s k with
  | some v => .ok v
  | none => .error (.lookupError k)

/-- `_has_impl`: `SELECT 1 FROM database WHERE key = ? LIMIT 1` produced
at least one row. -/
def has_impl {V : Type} (s : Store V) (k : String) : Bool :=
  (selectValue s k).isSome

/-- `_set_impl`: `REPLACE INTO database VALUES (?, ?)`. -/
def set_impl {V : Type} (s : Store V) (k : String) (v : V) : Store V :=
  insertSorted k v s

/-- `_delete_impl`: `DELETE FROM database WHERE key = ?`; returns
`rowcount > 0` together with the table afterwards. -/
def delete_impl {V : Type} (s : Store V) (k : String) : Bool × Store V :=
  (s.any (fun e => e.1 == k), s.filter (fun e => !(e.1 == k)))

/-- `HappyStore.get` = `_get_impl` followed by
`self._serializer.deserialize` on the value bytes (the serializer is the
pluggable codec; it may raise, so it is a parameter returning `Except`). -/
def hsGet {V A : Type} (deser : V → Except PyErr A) (s : Store V)
    (k : String) : Except PyErr A :=
  match get_impl s k with
  | .ok b => deser b
  | .error e => .error e

/-- `HappyStore.set` = `self._serializer.serialize` on the value, then
`_set_impl` on the resulting bytes. -/
def hsSet {V A : Type} (ser : A → V) (s : Store V) (k : String) (a : A) :
    Store V :=
  set_impl s k (ser a)

/-- `_bulk_get_impl`: `SELECT key, value FROM database WHERE key IN (...)`
collected into a dict (`found_kv_pairs`), then one entry per input key —
the found value, or a `LookupError(key)` marker (modelled by `Sum.inr key`)
when the key is absent.  SQLite accepts an empty `IN ()` list (it is
simply always false), so the empty key list yields the empty result. -/
def bulk_get_impl {V : Type} (s : Store V) (keys : List String) :
    List (V ⊕ String) :=
  let results := s.filter (fun e => keys.contains e.1)
  keys.map (fun k =>
    match results.find? (fun e => e.1 == k) with
    | some e => .inl e.2
    | none => .inr k)

/-- `HappyStore.bulk_get`: deserialize the elements that are value bytes,
pass the `LookupError` markers through unchanged.  `g` abstracts a
successful `deserialize` (its failure mode, `DeserializationError`, is
outside claim C7). -/
def hsBulkGet {V A : Type} (g : V → A) (s : Store V)
    (keys : List String) : List (A ⊕ String) :=
  (bulk_get_impl s keys).map (Sum.map g id)

/-- `_bulk_set_impl`: one statement
`REPLACE INTO database VALUES (?, ?),(?, ?),...` with a `(?, ?)` group per
pair.  With zero pairs the generated text is
`REPLACE INTO database VALUES ;`, which sqlite rejects with a syntax error
(`sqlite3.OperationalError`). -/
def bulk_set_impl {V : Type} (s : Store V) (pairs : List (String × V)) :
    Except PyErr (Store V) :=
  if pairs.isEmpty then .error .operationalError
  else .ok (pairs.foldl (fun acc p => insertSorted p.1 p.2 acc) s)

/- ### SQLite `LIKE` and `_query_impl` -/

/-- SQLite's default `LIKE` folds the ASCII letters `A`–`Z` to lower case
before comparing (case is significant for all other characters). -/
def foldAscii (c : Char) : Char :=
  if 'A' ≤ c ∧ c ≤ 'Z' then Char.ofNat (c.toNat + 32) else c

/-- One step/fuel-indexed core of the `LIKE` pattern match.  `%` matches
any (possibly empty) sequence, `_` matches exactly one character, and any
other pattern character matches case-insensitively for ASCII.  Each
recursive call shrinks `pattern length + text length`, so
`likeAux (pat.length + text.length + 1)` computes the total match (the
fuel keeps the recursion structural, hence kernel-reducible). -/
def likeAux : Nat → List Char → List Char → Bool
  | 0, _, _ => false
  | _ + 1, [], ts => ts.isEmpty
  | fuel + 1, p :: ps, ts =>
    if p = '%' then
      likeAux fuel ps ts ||
        (match ts with
         | [] => false
         | _ :: ts2 => likeAux fuel (p :: ps) ts2)
    else
      match ts with
      | [] => false
      | t :: ts2 =>
        (p == '_' || foldAscii p == foldAscii t) && likeAux fuel ps ts2

/-- `text LIKE pat` with SQLite's default semantics. -/
def sqliteLike (pat text : List Char) : Bool :=
  likeAux (pat.length + text.length + 1) pat text

/-- A SQL `LIMIT ?` clause with parameter `n`: a negative limit means "no
limit" in sqlite, otherwise at most `n` rows are returned. -/
def takeLimit {α : Type} (n : Int) (xs : List α) : List α :=
  if n < 0 then xs else xs.take n.toNat

/-- The optional `LIMIT ?` clause of `_query_impl` (absent when
`limit is None`). -/
def applyLimit {α : Type} (limit : Option Int) (xs : List α) : List α :=
  match limit with
  | none => xs
  | some n => takeLimit n xs

/-- `ORDER BY key ASC/DESC` over rows drawn in table order from the
sorted table: `DESC` (i.e. `reverse=True`) reverses them. -/
def orderRows {α : Type} (reverse : Bool) (xs : List α) : List α :=
  if reverse then xs.reverse else xs

/-- `_query_impl(keyprefix, start, end, limit, reverse)`.  The parameter
`kpfx` is the source's `keyprefix`.  Branch by branch as in the source:

* `keyprefix` given: `WHERE key LIKE ?` with parameter `keyprefix + '%'`,
  `ORDER BY key` (always ascending — this branch ignores `reverse`),
  optional `LIMIT ?`;
* `start` and `end` given: `WHERE key >= ? AND key <= ?`,
  `ORDER BY key ASC/DESC`, optional `LIMIT ?`;
* only `start`: `WHERE key >= ?`; only `end`: `WHERE key <= ?`;
* none of them given: no branch assigns the local variables
  `sql`/`params`, so `self._sqlite_connection.execute(sql, params)`
  raises `UnboundLocalError`. -/
def query_impl {V : Type} (s : Store V) (kpfx start_ end_ : Option String)
    (limit : Option Int) (reverse : Bool) :
    Except PyErr (List (String × V)) :=
  match kpfx with
  | some p =>
      .ok (applyLimit limit
        (s.filter (fun e => sqliteLike (p.data ++ ['%']) e.1.data)))
  | none =>
    match start_, end_ with
    | some a, some b =>
        .ok (applyLimit limit (orderRows reverse
          (s.filter (fun e => sKeyLe a e.1 && sKeyLe e.1 b))))
    | some a, none =>
        .ok (applyLimit limit (orderRows reverse
          (s.filter (fun e => sKeyLe a e.1))))
    | none, some b =>
        .ok (applyLimit limit (orderRows reverse
          (s.filter (fun e => sKeyLe e.1 b))))
    | none, none => .error .unboundLocalError

/- ### `scan` -/

/-- The body of `scan`'s `while True:` loop, with explicit fuel (the
source loop is unbounded; running out of fuel returns `none`, meaning the
loop has not terminated within that many iterations).  One iteration:

* `SELECT key, value FROM database WHERE key >= ? ORDER BY key LIMIT ?`
  with parameters `next_key` and `pagesize + 1` (each page is fetched
  inside its own short `transaction()`, which does not change the data
  read single-threadedly, so the committed table `s` is read directly);
* if fewer than `pagesize + 1` rows came back this is the last page: all
  of it is deserialized and yielded, and the loop ends;
* otherwise `next_key = page[-1][0]` (an `IndexError` if the page is
  empty, which happens for `pagesize = -1`), the last row is popped, and
  the remaining `pagesize` rows are deserialized and yielded.

`g` abstracts a successful `deserialize`. -/
def scanLoop {V A : Type} (g : V → A) (s : Store V) (pagesize : Int) :
    String → Nat → Option (Except PyErr (List (String × A)))
  | _, 0 => none
  | nk, fuel + 1 =>
    let page := takeLimit (pagesize + 1) (s.filter (fun e => sKeyLe nk e.1))
    if (page.length : Int) < pagesize + 1 then
      some (.ok (page.map (fun e => (e.1, g e.2))))
    else
      match page.getLast? with
      | none => some (.error .indexError)
      | some last =>
        match scanLoop g s pagesize last.1 fuel with
        | none => none
        | some (.error e) => some (.error e)
        | some (.ok rest) =>
            some (.ok ((page.dropLast.map (fun e => (e.1, g e.2))) ++ rest))

/-- `scan(pagesize)`: the loop starts from `next_key = ''`, the smallest
string. -/
def scan {V A : Type} (g : V → A) (s : Store V) (pagesize : Int)
    (fuel : Nat) : Option (Except PyErr (List (String × A))) :=
  scanLoop g s pagesize "" fuel

/- ### The `RawSerializer` codec -/

/-- Python type objects relevant to `RawSerializer`. -/
inductive PyTy : Type
  | bytesT
  | noneT
  | typeT
  deriving DecidableEq, Repr

/-- A small universe of Python runtime values, enough to express what
`RawSerializer` does: byte strings, `None`, and type objects (such as the
builtin `bytes` itself). -/
inductive PyObj : Type
  | pyBytes (b : List Nat)
  | pyNone
  | pyType (t : PyTy)
  deriving DecidableEq, Repr

/-- Python's `type(x)`. -/
def typeOf : PyObj → PyTy
  | .pyBytes _ => .bytesT
  | .pyNone => .noneT
  | .pyType _ => .typeT

/-- The builtin type object `bytes` itself — a value whose own type is
`type`. -/
def bytesBuiltin : PyObj := .pyType .bytesT

/-- `RawSerializer.serialize`:
`if type(value) is bytes: return value else: raise SerializationError`. -/
def rawSerialize (value : PyObj) : Except PyErr PyObj :=
  if typeOf value = .bytesT then .ok value
  else .error .serializationError

/-- `RawSerializer.deserialize`.  The source tests `type(bytes) is bytes`
— `bytes` here is the *builtin type object*, not the argument `bytess` —
which is always false, since `type(bytes)` is `type`.  (Its then-branch
would return the unbound name `value`, a `NameError`, modelled here too.)
Every call therefore takes the else branch and raises
`SerializationError`. -/
def rawDeserialize (_bytess : PyObj) : Except PyErr PyObj :=
  if typeOf bytesBuiltin = .bytesT then .error .nameError
  else .error .serializationError

/- ### The sqlite transaction substrate -/

/-- The state of an open sqlite transaction: the working contents of the
table, plus the savepoint stack (most recent first).  Each savepoint
records its name and a snapshot of the table at its creation. -/
structure TxnState (V : Type) where
  current : Store V
  savepoints : List (String × Store V)
  deriving DecidableEq, Repr

/-- A sqlite connection's data state: the committed table, and the open
transaction if any. -/
structure SqliteState (V : Type) where
  committed : Store V
  txn : Option (TxnState V)
  deriving DecidableEq, Repr

/-- `BEGIN EXCLUSIVE TRANSACTION;` — an error if a transaction is
already open on this connection. -/
def sqlBegin {V : Type} (st : SqliteState V) :
    Except PyErr (SqliteState V) :=
  match st.txn with
  | some _ => .error .operationalError
  | none => .ok { st with txn := some ⟨st.committed, []⟩ }

/-- `COMMIT;` — the working table becomes the committed table. -/
def sqlCommit {V : Type} (st : SqliteState V) :
    Except PyErr (SqliteState V) :=
  match st.txn with
  | none => .error .operationalError
  | some t => .ok ⟨t.current, none⟩

/-- `ROLLBACK;` — the whole open transaction is discarded. -/
def sqlRollback {V : Type} (st : SqliteState V) :
    Except PyErr (SqliteState V) :=
  match st.txn with
  | none => .error .operationalError
  | some _ => .ok ⟨st.committed, none⟩

/-- Find the most recent savepoint with the given name: its snapshot
together with the part of the stack strictly below it (savepoint names
need not be unique in sqlite; the most recent match wins). -/
def findSavepoint {V : Type} (name : String) :
    List (String × Store V) → Option (Store V × List (String × Store V))
  | [] => none
  | (n, snap) :: rest =>
    if n = name then some (snap, rest) else findSavepoint name rest

/-- `SAVEPOINT name;` — push a savepoint recording the current table.
(With no open transaction sqlite would begin one; HappyStore only issues
SAVEPOINT inside an open transaction, and the model mirrors sqlite by
opening one.) -/
def sqlSavepoint {V : Type} (name : String) (st : SqliteState V) :
    Except PyErr (SqliteState V) :=
  match st.txn with
  | some t =>
    .ok { st with txn := some ⟨t.current, (name, t.current) :: t.savepoints⟩ }
  | none => .ok { st with txn := some ⟨st.committed, [(name, st.committed)]⟩ }

/-- `RELEASE SAVEPOINT name;` — remove the most recent savepoint with
that name, and everything above it, from the stack; the data is
unchanged.  An error if no savepoint with that name exists. -/
def sqlRelease {V : Type} (name : String) (st : SqliteState V) :
    Except PyErr (SqliteState V) :=
  match st.txn with
  | none => .error .operationalError
  | some t =>
    match findSavepoint name t.savepoints with
    | none => .error .operationalError
    | some (_, below) => .ok { st with txn := some ⟨t.current, below⟩ }

/-- `ROLLBACK TO name;` — restore the table to the snapshot of the most
recent savepoint with that name, cancelling all savepoints above it; the
named savepoint itself REMAINS on the stack (sqlite: the ROLLBACK TO
command restarts the transaction at the savepoint; all intervening
savepoints are canceled, the named one is not).  An error if no such
savepoint exists. -/
def sqlRollbackTo {V : Type} (name : String) (st : SqliteState V) :
    Except PyErr (SqliteState V) :=
  match st.txn with
  | none => .error .operationalError
  | some t =>
    match findSavepoint name t.savepoints with
    | none => .error .operationalError
    | some (snap, below) =>
      .ok { st with txn := some ⟨snap, (name, snap) :: below⟩ }

/- ### The `transaction()` context manager -/

/-- The `_SqlLiteHappyStore` transaction bookkeeping together with the
sqlite connection state.  `_txn_rlock` is re-entrant and everything below
runs on one logical thread of control, so the lock itself is not
modelled. -/
structure HSState (V : Type) where
  sqlite : SqliteState V
  is_already_in_txn : Bool
  txn_nesting_level : Nat
  deriving DecidableEq, Repr

/-- A fresh store handle whose committed table is `s`. -/
def initState {V : Type} (s : Store V) : HSState V := ⟨⟨s, none⟩, false, 0⟩

/-- How a block of Python code finished: normally, by raising
`AbortionError`, or by raising some other exception. -/
inductive Outcome : Type
  | normal
  | abortion
  | failure (e : PyErr)
  deriving DecidableEq, Repr

/-- The `transaction()` context manager (a
`@contextlib.contextmanager`), wrapped around a block `body`, mirroring
the source clause by clause:

* try: if `_is_already_in_txn` then increment `_txn_nesting_level` and
  `SAVEPOINT txn;` (the savepoint name is the fixed string `"txn"` at
  every depth), else set `_is_already_in_txn` and
  `BEGIN EXCLUSIVE TRANSACTION;`; then run the body;
* `except AbortionError`: `ROLLBACK TO txn;` when
  `_txn_nesting_level > 0`, else `ROLLBACK;` — and the `AbortionError`
  is NOT re-raised;
* `except Exception`: the same rollback, then `raise` (re-raised
  unchanged);
* else: `RELEASE SAVEPOINT txn;` when `_txn_nesting_level > 0`, else
  `COMMIT;`;
* finally: if `_txn_nesting_level == 0` clear `_is_already_in_txn`, else
  decrement `_txn_nesting_level`.

An exception raised by a handler's own `execute` replaces the pending
outcome, as in Python; the `finally` clause always runs. -/
def runScope {V : Type} (body : HSState V → Outcome × HSState V)
    (h : HSState V) : Outcome × HSState V :=
  let entered : Outcome × HSState V :=
    if h.is_already_in_txn then
      let h1 := { h with txn_nesting_level := h.txn_nesting_level + 1 }
      match sqlSavepoint "txn" h1.sqlite with
      | .ok st => body { h1 with sqlite := st }
      | .error e => (.failure e, h1)
    else
      let h1 := { h with is_already_in_txn := true }
      match sqlBegin h1.sqlite with
      | .ok st => body { h1 with sqlite := st }
      | .error e => (.failure e, h1)
  let oc := entered.1
  let h2 := entered.2
  let handled : Outcome × HSState V :=
    match oc with
    | .abortion =>
      match (if h2.txn_nesting_level > 0 then sqlRollbackTo "txn" h2.sqlite
             else sqlRollback h2.sqlite) with
      | .ok st => (.normal, { h2 with sqlite := st })
      | .error e2 => (.failure e2, h2)
    | .failure e =>
      match (if h2.txn_nesting_level > 0 then sqlRollbackTo "txn" h2.sqlite
             else sqlRollback h2.sqlite) with
      | .ok st => (.failure e, { h2 with sqlite := st })
      | .error e2 => (.failure e2, h2)
    | .normal =>
      match (if h2.txn_nesting_level > 0 then sqlRelease "txn" h2.sqlite
             else sqlCommit h2.sqlite) with
      | .ok st => (.normal, { h2 with sqlite := st })
      | .error e2 => (.failure e2, h2)
  let oc3 := handled.1
  let h3 := handled.2
  if h3.txn_nesting_level == 0 then (oc3, { h3 with is_already_in_txn := false })
  else (oc3, { h3 with txn_nesting_level := h3.txn_nesting_level - 1 })

/-- Apply a table statement to the open transaction's working table.
(Every HappyStore operation reaches the table through
`_ensure_execution_in_txn`, so a transaction is always open here; the
no-transaction case is kept as a sqlite error for totality.) -/
def execTable {V : Type} (f : Store V → Except PyErr (Store V))
    (h : HSState V) : Outcome × HSState V :=
  match h.sqlite.txn with
  | some t =>
    match f t.current with
    | .ok s2 =>
      (.normal,
        { h with sqlite := { h.sqlite with txn := some ⟨s2, t.savepoints⟩ } })
    | .error e => (.failure e, h)
  | none => (.failure .operationalError, h)

/-- `_ensure_execution_in_txn`: run `f` directly when a transaction is
already active, otherwise wrap it in its own `transaction()` scope. -/
def ensureInTxn {V : Type} (f : HSState V → Outcome × HSState V)
    (h : HSState V) : Outcome × HSState V :=
  if h.is_already_in_txn then f h else runScope f h

/-- Client transaction scripts: straight-line Python code issuing store
operations, `with store.transaction():` blocks, and raises. -/
inductive Prog (V : Type) : Type
  | skip
  | set (k : String) (v : V)
  | del (k : String)
  | bulkSet (pairs : List (String × V))
  | raiseAbort
  | raiseExc (e : PyErr)
  | seq (p q : Prog V)
  | txn (p : Prog V)

/-- Execute a client script.  A raised exception skips the rest of a
`seq`, as in Python; `txn p` is `with store.transaction(): p`. -/
def runProg {V : Type} : Prog V → HSState V → Outcome × HSState V
  | .skip, h => (.normal, h)
  | .raiseAbort, h => (.abortion, h)
  | .raiseExc e, h => (.failure e, h)
  | .set k v, h => ensureInTxn (execTable (fun s => .ok (set_impl s k v))) h
  | .del k, h => ensureInTxn (execTable (fun s => .ok (delete_impl s k).2)) h
  | .bulkSet pairs, h =>
    ensureInTxn (execTable (fun s => bulk_set_impl s pairs)) h
  | .seq p q, h =>
    match runProg p h with
    | (.normal, h1) => runProg q h1
    | r => r
  | .txn p, h => runScope (fun h1 => runProg p h1) h

/- ### Definitions written from the spec's words, and concrete scripts -/

/-- Modelled from the spec (§4.3, range mode): the entries satisfying the
inclusive bounds — both bounds given: `start ≤ key ≤ end`; only `start`:
all entries `≥ start`; only `end`: all entries `≤ end` — ordered
ascending by key (the table order) or descending when `reverse` is true,
with `limit` truncating after the ordering is applied.  This definition
follows the spec sentence; the amended claim C4 compares it with the
source-derived `query_impl`. -/
def specRangeQuery {V : Type} (s : Store V) (start_ end_ : Option String)
    (limit : Option Nat) (reverse : Bool) : List (String × V) :=
  let inBounds : String × V → Bool := fun e =>
    (match start_ with | some a => sKeyLe a e.1 | none => true)
      && (match end_ with | some b => sKeyLe e.1 b | none => true)
  let ordered :=
    if reverse then (s.filter inBounds).reverse else s.filter inBounds
  match limit with
  | some n => ordered.take n
  | none => ordered

/-- The script for claim C1's failing input, starting from an empty
store:

    with store.transaction():          # root
        store.set('r', 1)
        with store.transaction():      # nested scope A
            store.set('x', 2)
            with store.transaction():  # nested scope B
                raise AbortionError()
            raise AbortionError()      # abort scope A itself
-/
def progC1 : Prog Nat :=
  .txn (.seq (.set "r" 1)
    (.txn (.seq (.set "x" 2) (.seq (.txn .raiseAbort) .raiseAbort))))

/-- The script for claim C2's failing input, starting from an empty
store:

    with store.transaction():          # root
        with store.transaction():      # nested scope A
            store.set('p', 7)
            with store.transaction():  # nested scope B
                raise AbortionError()
            raise AbortionError()      # abort scope A itself
-/
def progC2 : Prog Nat :=
  .txn (.txn (.seq (.set "p" 7) (.seq (.txn .raiseAbort) .raiseAbort)))

/- ### Helper lemmas: the key order -/

theorem keyLtb_irrefl : ∀ x : List Char, keyLtb x x = false
  | [] => rfl
  | a :: as => by simp [keyLtb, keyLtb_irrefl as]

theorem keyLtb_asymm : ∀ {x y : List Char},
    keyLtb x y = true → keyLtb y x = false
  | [], [], h => by simp [keyLtb] at h
  | [], _ :: _, _ => rfl
  | _ :: _, [], h => by simp [keyLtb] at h
  | a :: as, b :: bs, h => by
    by_cases hab : a = b
    · subst hab
      simp only [keyLtb, if_pos rfl] at h ⊢
      exact keyLtb_asymm h
    · have hba : ¬ b = a := fun hh => hab hh.symm
      simp only [keyLtb, if_neg hab, decide_eq_true_eq] at h
      simp only [keyLtb, if_neg hba, decide_eq_false_iff_not]
      exact lt_asymm h

theorem keyLtb_trans : ∀ {x y z : List Char},
    keyLtb x y = true → keyLtb y z = true → keyLtb x z = true
  | [], [], _, h1, _ => by simp [keyLtb] at h1
  | [], _ :: _, [], _, h2 => by simp [keyLtb] at h2
  | [], _ :: _, _ :: _, _, _ => rfl
  | _ :: _, [], _, h1, _ => by simp [keyLtb] at h1
  | _ :: _, _ :: _, [], _, h2 => by simp [keyLtb] at h2
  | a :: as, b :: bs, c :: cs, h1, h2 => by
    by_cases hab : a = b
    · subst hab
      simp only [keyLtb, if_pos rfl] at h1
      by_cases hbc : a = c
      · subst hbc
        simp only [keyLtb, if_pos rfl] at h2 ⊢
        exact keyLtb_trans h1 h2
      · simp only [keyLtb, if_neg hbc] at h2 ⊢
        exact h2
    · simp only [keyLtb, if_neg hab, decide_eq_true_eq] at h1
      by_cases hbc : b = c
      · subst hbc
        simp only [keyLtb, if_neg hab, decide_eq_true_eq]
        exact h1
      · simp only [keyLtb, if_neg hbc, decide_eq_true_eq] at h2
        have hac : a < c := lt_trans h1 h2
        have hne : ¬ a = c := ne_of_lt hac
        simp only [keyLtb, if_neg hne, decide_eq_true_eq]
        exact hac

theorem keyLtb_eq_of_not : ∀ {x y : List Char},
    keyLtb x y = false → keyLtb y x = false → x = y
  | [], [], _, _ => rfl
  | [], _ :: _, h1, _ => by simp [keyLtb] at h1
  | _ :: _, [], _, h2 => by simp [keyLtb] at h2
  | a :: as, b :: bs, h1, h2 => by
    by_cases hab : a = b
    · subst hab
      simp only [keyLtb, if_pos rfl] at h1 h2
      rw [keyLtb_eq_of_not h1 h2]
    · have hba : ¬ b = a := fun hh => hab hh.symm
      simp only [keyLtb, if_neg hab, decide_eq_false_iff_not] at h1
      simp only [keyLtb, if_neg hba, decide_eq_false_iff_not] at h2
      exact absurd (le_antisymm (le_of_not_lt h2) (le_of_not_lt h1)) hab

theorem keyLeb_refl (x : List Char) : keyLeb x x = true := by
  simp [keyLeb, keyLtb_irrefl]

theorem keyLeb_nil : ∀ y : List Char, keyLeb [] y = true
  | [] => rfl
  | _ :: _ => rfl

theorem keyLeb_of_ltb {x y : List Char} (h : keyLtb x y = true) :
    keyLeb x y = true := by
  simp [keyLeb, keyLtb_asymm h]

theorem keyLeb_trans {x y z : List Char} (h1 : keyLeb x y = true)
    (h2 : keyLeb y z = true) : keyLeb x z = true := by
  simp only [keyLeb, Bool.not_eq_true'] at h1 h2 ⊢
  cases hzx : keyLtb z x with
  | false => rfl
  | true =>
    cases hxy : keyLtb x y with
    | true => exact absurd (keyLtb_trans hzx hxy) (by simp [h2])
    | false =>
      have hxe : x = y := keyLtb_eq_of_not hxy h1
      subst hxe
      exact absurd hzx (by simp [h2])

theorem keyLtb_of_ltb_of_leb {x y z : List Char} (h1 : keyLtb x y = true)
    (h2 : keyLeb y z = true) : keyLtb x z = true := by
  simp only [keyLeb, Bool.not_eq_true'] at h2
  cases hyz : keyLtb y z with
  | true => exact keyLtb_trans h1 hyz
  | false =>
    have : y = z := keyLtb_eq_of_not hyz h2
    subst this
    exact h1

theorem sKeyLe_refl (x : String) : sKeyLe x x = true := keyLeb_refl x.data

theorem sKeyLe_trans {x y z : String} (h1 : sKeyLe x y = true)
    (h2 : sKeyLe y z = true) : sKeyLe x z = true := keyLeb_trans h1 h2

theorem sKeyLe_empty (y : String) : sKeyLe "" y = true := keyLeb_nil y.data

theorem sKeyLe_of_lt {x y : String} (h : sKeyLt x y = true) :
    sKeyLe x y = true := keyLeb_of_ltb h

theorem sKeyLt_asymm_le {x y : String} (h : sKeyLt x y = true) :
    sKeyLe y x = false := by
  simp only [sKeyLe, keyLeb, Bool.not_eq_false']
  exact h

theorem sKey_eq_of_le_le {x y : String} (h1 : sKeyLe x y = true)
    (h2 : sKeyLe y x = true) : x = y := by
  simp only [sKeyLe, keyLeb, Bool.not_eq_true'] at h1 h2
  have hd : x.data = y.data := keyLtb_eq_of_not h2 h1
  cases x with
  | mk xd => cases y with
    | mk yd => exact congrArg String.mk hd

/- ### Helper lemmas: the table operations -/

theorem selectValue_insertSorted_self {V : Type} (s : Store V)
    (k : String) (v : V) : selectValue (insertSorted k v s) k = some v := by
  induction s with
  | nil => simp [insertSorted, selectValue, List.find?]
  | cons e t ih =>
    by_cases h1 : sKeyLt k e.1 = true
    · simp [insertSorted, h1, selectValue, List.find?]
    · by_cases h2 : k = e.1
      · subst h2
        cases hs : sKeyLt e.1 e.1 <;>
          simp [insertSorted, hs, selectValue, List.find?]
      · have hne : ¬ (e.1 == k) = true := by
          simp only [beq_iff_eq]
          exact fun h => h2 h.symm
        simp only [insertSorted, if_neg h1, if_neg h2]
        simp only [selectValue, List.find?, hne] at ih ⊢
        simpa [hne] using ih

theorem selectValue_delete_self {V : Type} (s : Store V) (k : String) :
    selectValue (delete_impl s k).2 k = none := by
  have h : (s.filter (fun e => !(e.1 == k))).find? (fun e => e.1 == k)
      = none := by
    rw [List.find?_eq_none]
    intro e he
    have h2 := List.of_mem_filter he
    simp only [Bool.not_eq_true'] at h2
    simp [h2]
  simp only [delete_impl, selectValue, h]

theorem hsBulkGet_length {V A : Type} (g : V → A) (s : Store V)
    (keys : List String) : (hsBulkGet g s keys).length = keys.length := by
  simp [hsBulkGet, bulk_get_impl]

theorem find?_filter_contains {V : Type} (s : Store V) (keys : List String)
    (k : String) (hk : keys.contains k = true) :
    (s.filter (fun e => keys.contains e.1)).find? (fun e => e.1 == k)
      = s.find? (fun e => e.1 == k) := by
  induction s with
  | nil => rfl
  | cons e t ih =>
    rw [List.filter_cons]
    by_cases hc : keys.contains e.1 = true
    · rw [if_pos hc]
      by_cases he : (e.1 == k) = true
      · simp only [List.find?_cons, he]
      · have he2 : (e.1 == k) = false := by simpa using he
        simp only [List.find?_cons, he2]
        exact ih
    · rw [if_neg hc]
      by_cases he : (e.1 == k) = true
      · have h2 : e.1 = k := by simpa using he
        rw [h2] at hc
        exact absurd hk hc
      · have he2 : (e.1 == k) = false := by simpa using he
        simp only [List.find?_cons, he2]
        exact ih

theorem applyLimit_map_ofNat {α : Type} (limit : Option Nat)
    (xs : List α) :
    applyLimit (limit.map Int.ofNat) xs
      = (match limit with | some n => xs.take n | none => xs) := by
  cases limit with
  | none => rfl
  | some n =>
    have hnn : ¬ (Int.ofNat n < 0) := Int.not_lt.mpr (Int.ofNat_nonneg n)
    simp only [Option.map_some', applyLimit, takeLimit, if_neg hnn]
    rfl

theorem takeLimit_natCast {α : Type} (m : Nat) (xs : List α) :
    takeLimit (m : Int) xs = xs.take m := by
  have hnn : ¬ ((m : Int) < 0) := by omega
  simp only [takeLimit, if_neg hnn]
  rfl

theorem filter_le_empty_eq {V : Type} (s : Store V) :
    s.filter (fun e => sKeyLe "" e.1) = s :=
  List.filter_eq_self.mpr (fun a _ => sKeyLe_empty a.1)

theorem filter_le_filter_le {V : Type} (s : Store V) (nk nk2 : String)
    (h : sKeyLe nk nk2 = true) :
    s.filter (fun e => sKeyLe nk2 e.1)
      = (s.filter (fun e => sKeyLe nk e.1)).filter
          (fun e => sKeyLe nk2 e.1) := by
  rw [List.filter_filter]
  refine List.filter_congr ?_
  intro x hx
  by_cases h2 : sKeyLe nk2 x.1 = true
  · rw [h2, sKeyLe_trans h h2]
    rfl
  · have h2f : sKeyLe nk2 x.1 = false := by simpa using h2
    rw [h2f]
    rfl

theorem filter_le_getElem_drop {V : Type} :
    ∀ (t : Store V) (ht : t.Pairwise (fun a b => sKeyLt a.1 b.1 = true))
      (p : Nat) (hp : p < t.length),
      t.filter (fun e => sKeyLe t[p].1 e.1) = t.drop p
  | [], _, p, hp => absurd hp (by simp)
  | e :: t2, ht, 0, _ => by
    have hrel := (List.pairwise_cons.mp ht).1
    simp only [List.getElem_cons_zero, List.drop_zero]
    rw [List.filter_cons, if_pos (sKeyLe_refl e.1)]
    congr 1
    exact List.filter_eq_self.mpr (fun x hx => sKeyLe_of_lt (hrel x hx))
  | e :: t2, ht, p + 1, hp => by
    have hrel := (List.pairwise_cons.mp ht).1
    have ht2 := (List.pairwise_cons.mp ht).2
    have hp2 : p < t2.length := by simpa using hp
    have hmem : t2[p] ∈ t2 := List.getElem_mem hp2
    have hlt : sKeyLt e.1 (t2[p]).1 = true := hrel _ hmem
    simp only [List.getElem_cons_succ, List.drop_succ_cons]
    rw [List.filter_cons,
      if_neg (by rw [sKeyLt_asymm_le hlt]; exact Bool.false_ne_true)]
    exact filter_le_getElem_drop t2 ht2 p hp2

theorem scanLoop_sorted_complete {V A : Type} (g : V → A) (s : Store V)
    (hs : StoreSorted s) (P : Nat) (hp : 1 ≤ P) :
    ∀ (fuel : Nat) (nk : String),
      (s.filter (fun e => sKeyLe nk e.1)).length < fuel →
      scanLoop g s (P : Int) nk fuel
        = some (.ok ((s.filter (fun e => sKeyLe nk e.1)).map
            (fun e => (e.1, g e.2)))) := by
  have hs' : s.Pairwise (fun a b => sKeyLt a.1 b.1 = true) := hs
  intro fuel
  induction fuel with
  | zero => intro nk h; exact absurd h (Nat.not_lt_zero _)
  | succ n ih =>
    intro nk hlen
    have hofn : (P : Int) + 1 = ((P + 1 : Nat) : Int) := by omega
    simp only [scanLoop]
    rw [hofn, takeLimit_natCast]
    set t := s.filter (fun e => sKeyLe nk e.1) with hT
    have htsort : t.Pairwise (fun a b => sKeyLt a.1 b.1 = true) :=
      List.Pairwise.filter _ hs'
    by_cases hc : t.length < P + 1
    · rw [List.take_of_length_le (by omega)]
      rw [if_pos (by omega : ((t.length : Nat) : Int) < ((P + 1 : Nat) : Int))]
    · have hlt : (t.take (P + 1)).length = P + 1 := by
        rw [List.length_take]
        omega
      have hcond : ¬ (((t.take (P + 1)).length : Int) < ((P + 1 : Nat) : Int)) := by
        rw [hlt]
        omega
      rw [if_neg hcond]
      have hP : P < t.length := by omega
      have hlast : (t.take (P + 1)).getLast? = some t[P] := by
        rw [List.getLast?_eq_getElem?, hlt]
        simp only [Nat.add_sub_cancel]
        rw [List.getElem?_take_of_succ]
        exact List.getElem?_eq_getElem hP
      have hx : sKeyLe nk (t[P]).1 = true := by
        have hall : ∀ x ∈ t, sKeyLe nk x.1 = true := by
          rw [hT]
          intro x hxm
          exact (List.mem_filter.mp hxm).2
        exact hall t[P] (List.getElem_mem hP)
      have hnext : s.filter (fun e => sKeyLe (t[P]).1 e.1) = t.drop P := by
        rw [filter_le_filter_le s nk (t[P]).1 hx, ← hT]
        exact filter_le_getElem_drop t htsort P hP
      have hreclen : (s.filter (fun e => sKeyLe (t[P]).1 e.1)).length < n := by
        rw [hnext, List.length_drop]
        omega
      have hrec := ih (t[P]).1 hreclen
      rw [hnext] at hrec
      have hdl : (t.take (P + 1)).dropLast = t.take P := by
        rw [List.dropLast_eq_take, hlt]
        simp only [Nat.add_sub_cancel]
        rw [List.take_take]
        rw [Nat.min_eq_left (by omega)]
      simp only [hlast, hrec, hdl]
      rw [← List.map_append, List.take_append_drop]

/- ### Claim theorems -/

/-- Claim C1 (code_bug): evaluating the engine at the failing input.  In
`progC1` the root writes `r=1`, nested scope A writes `x=2`, nested
scope B aborts, and then scope A itself aborts.  The claim says A's abort
rolls back to A's own checkpoint, discarding `x=2` and leaving only the
root's `r=1`; the code instead commits BOTH writes, because scope B's
`ROLLBACK TO txn` left B's savepoint (named `txn`, like every savepoint)
on the stack, so scope A's later `ROLLBACK TO txn` restores B's snapshot
— which still contains `x=2` — rather than A's own. -/
theorem C1_nested_abort_keeps_enclosing_scope_write :
    runProg progC1 (initState []) =
      (.normal, initState [("r", 1), ("x", 2)]) := rfl

/-- Claim C2 (code_bug): evaluating the engine at the failing input.  In
`progC2` nested scope A writes `p=7`, nested scope B aborts, then scope A
raises `AbortionError`.  The outcome `.normal` confirms the abort is not
re-raised past the scope boundary (that half of the claim holds), but the
final committed table still contains `p=7`: scope A's pending write was
NOT rolled back, because A's `ROLLBACK TO txn` targeted the stale
savepoint left behind by B's earlier abort. -/
theorem C2_abort_swallowed_but_scope_write_survives :
    runProg progC2 (initState []) = (.normal, initState [("p", 7)]) := rfl

/-- Claim C3 (confirmed): for any codec with the round-trip property,
immediately after `set(k, v)` the store satisfies `get(k) = v` and
`has(k) = true`; immediately after `delete(k)`, `has(k) = false` and a
subsequent `get(k)` raises `LookupError(k)`. -/
theorem C3_point_consistency {V A : Type} (ser : A → V)
    (deser : V → Except PyErr A) (hrt : ∀ a, deser (ser a) = .ok a)
    (s : Store V) (k : String) (v : A) :
    hsGet deser (hsSet ser s k v) k = .ok v
      ∧ has_impl (hsSet ser s k v) k = true
      ∧ has_impl (delete_impl s k).2 k = false
      ∧ get_impl (delete_impl s k).2 k = .error (.lookupError k) := by
  refine ⟨?_, ?_, ?_, ?_⟩
  · simp [hsGet, hsSet, set_impl, get_impl,
      selectValue_insertSorted_self, hrt]
  · simp [has_impl, hsSet, set_impl, selectValue_insertSorted_self]
  · simp [has_impl, selectValue_delete_self]
  · simp [get_impl, selectValue_delete_self]

/-- Witness for C3 at a concrete input: value type `Nat`, the identity
codec, empty store, key `"a"`, value `5`. -/
theorem C3_point_consistency_witness :
    hsGet (fun v => (.ok v : Except PyErr Nat)) (hsSet id [] "a" 5) "a"
        = .ok 5
      ∧ has_impl (hsSet id ([] : Store Nat) "a" 5) "a" = true
      ∧ has_impl (delete_impl ([] : Store Nat) "a").2 "a" = false
      ∧ get_impl (delete_impl ([] : Store Nat) "a").2 "a"
        = .error (.lookupError "a") :=
  C3_point_consistency id (fun v => .ok v) (fun _ => rfl) [] "a" 5

/-- Claim C4 counterexample: with neither `start` nor `end` (and no
`keyprefix`) given, `_query_impl` falls through every branch without
assigning the local variables `sql`/`params`, so executing raises
`UnboundLocalError`; on a one-entry store it does not return the store's
entries as the claim requires. -/
theorem C4_counterexample_no_bounds :
    query_impl [(("a" : String), (0 : Nat))] none none none none false
        = .error .unboundLocalError
      ∧ query_impl [(("a" : String), (0 : Nat))] none none none none false
        ≠ .ok [("a", 0)] :=
  ⟨rfl, fun h => nomatch h⟩

/-- Claim C4 (corrected/amended): with at least one bound supplied, range
mode returns exactly the entries satisfying the inclusive bounds — both
bounds: `start ≤ key ≤ end`; only `start`: all entries `≥ start`; only
`end`: all entries `≤ end` — ordered ascending by key, or descending
when `reverse` is true, with `limit` truncating after the ordering is
applied (it agrees with the spec-worded `specRangeQuery`, and the
returned rows are strictly sorted in the stated direction).  With
neither bound supplied, the code raises `UnboundLocalError` instead of
returning every entry. -/
theorem C4_range_mode_amended {V : Type} (s : Store V)
    (hs : StoreSorted s) (start_ end_ : Option String)
    (limit : Option Nat) (reverse : Bool)
    (hb : start_.isSome ∨ end_.isSome) :
    query_impl s none start_ end_ (limit.map Int.ofNat) reverse
        = .ok (specRangeQuery s start_ end_ limit reverse)
      ∧ (reverse = false →
          (specRangeQuery s start_ end_ limit reverse).Pairwise
            (fun a b => sKeyLt a.1 b.1 = true))
      ∧ (reverse = true →
          (specRangeQuery s start_ end_ limit reverse).Pairwise
            (fun a b => sKeyLt b.1 a.1 = true))
      ∧ query_impl s none none none (limit.map Int.ofNat) reverse
        = .error .unboundLocalError := by
  have hs' : s.Pairwise (fun a b => sKeyLt a.1 b.1 = true) := hs
  refine ⟨?_, ?_, ?_, rfl⟩
  · rcases start_ with _ | a <;> rcases end_ with _ | b
    · simp at hb
    · simp only [query_impl, specRangeQuery, orderRows,
        applyLimit_map_ofNat, Bool.true_and]
    · simp only [query_impl, specRangeQuery, orderRows,
        applyLimit_map_ofNat, Bool.and_true]
    · simp only [query_impl, specRangeQuery, orderRows,
        applyLimit_map_ofNat]
  · intro hrev
    subst hrev
    cases limit with
    | none =>
      simp only [specRangeQuery, if_neg Bool.false_ne_true]
      exact List.Pairwise.filter _ hs'
    | some n =>
      simp only [specRangeQuery, if_neg Bool.false_ne_true]
      exact (List.Pairwise.filter _ hs').take
  · intro hrev
    subst hrev
    cases limit with
    | none =>
      simp only [specRangeQuery, if_pos rfl]
      exact List.pairwise_reverse.mpr (List.Pairwise.filter _ hs')
    | some n =>
      simp only [specRangeQuery, if_pos rfl]
      exact (List.pairwise_reverse.mpr (List.Pairwise.filter _ hs')).take

/-- Witness for the amended C4 at a concrete input: a two-entry sorted
store, `start="a"`, no `end`, `limit=1`, `reverse=true`. -/
theorem C4_range_mode_amended_witness :
    (query_impl [("a", 0), ("b", 1)] none (some "a") none
          ((some 1).map Int.ofNat) true
        = .ok (specRangeQuery [("a", 0), ("b", 1)] (some "a") none
            (some 1) true))
      ∧ (true = false →
          (specRangeQuery ([("a", 0), ("b", 1)] : Store Nat) (some "a") none
            (some 1) true).Pairwise (fun a b => sKeyLt a.1 b.1 = true))
      ∧ (true = true →
          (specRangeQuery ([("a", 0), ("b", 1)] : Store Nat) (some "a") none
            (some 1) true).Pairwise (fun a b => sKeyLt b.1 a.1 = true))
      ∧ query_impl ([("a", 0), ("b", 1)] : Store Nat) none none none
          ((some 1).map Int.ofNat) true = .error .unboundLocalError :=
  C4_range_mode_amended [("a", 0), ("b", 1)]
    (by unfold StoreSorted
        decide)
    (some "a") none (some 1) true (Or.inl rfl)

/-- Claim C5 (code_bug): evaluating the prefix query at the failing
input.  With the single stored key `"A"`, `query(keyprefix='a')` returns
the `("A", 0)` row — although `"A"` does not start with `"a"` — because
the implementation matches `key LIKE 'a%'` and sqlite's `LIKE` is
case-insensitive for ASCII.  The claim requires the empty result here. -/
theorem C5_prefix_query_returns_non_prefixed_key :
    query_impl [(("A" : String), (0 : Nat))] (some "a") none none none false
        = .ok [("A", 0)]
      ∧ List.isPrefixOf "a".data "A".data = false := ⟨rfl, by decide⟩

/-- Claim C8 (code_bug): evaluating the `RawSerializer` round trip at the
failing input.  `serialize` accepts the bytes value `b''` and returns it
unchanged, but `deserialize(serialize(b''))` raises `SerializationError`
instead of returning `b''`, because the source tests `type(bytes)` — the
builtin type object — rather than its argument. -/
theorem C8_raw_serializer_roundtrip_fails :
    rawSerialize (.pyBytes []) = .ok (.pyBytes [])
      ∧ rawDeserialize (.pyBytes []) = .error .serializationError :=
  ⟨rfl, rfl⟩

/-- Claim C10 (confirmed): `bulk_set` with an empty list of pairs builds
the malformed statement `REPLACE INTO database VALUES ;`, so it raises
(`sqlite3.OperationalError`) and the ambient transaction rolls back,
leaving the committed store unchanged; with any non-empty list it
completes normally. -/
theorem C10_bulk_set_empty_raises {V : Type} (s : Store V) :
    runProg (Prog.bulkSet ([] : List (String × V))) (initState s)
        = (.failure .operationalError, initState s)
      ∧ ∀ pairs : List (String × V), pairs ≠ [] →
          (runProg (Prog.bulkSet pairs) (initState s)).1 = .normal := by
  constructor
  · rfl
  · intro pairs hne
    cases pairs with
    | nil => exact absurd rfl hne
    | cons a l => rfl

/-- Claim C7 (confirmed): `bulk_get` returns a list positionally aligned
with its input — it has the same length as `keys`, and element `i` is the
decoded value of `keys[i]` when that key is stored and a
`LookupError(keys[i])` marker when it is absent.  The result is total, so
a missing key never fails the whole batch. -/
theorem C7_bulk_get_alignment {V A : Type} (g : V → A) (s : Store V)
    (keys : List String) (i : Nat) :
    (hsBulkGet g s keys).length = keys.length
      ∧ (hsBulkGet g s keys).get? i
        = (keys.get? i).map (fun k =>
            match selectValue s k with
            | some v => Sum.inl (g v)
            | none => Sum.inr k) := by
  constructor
  · exact hsBulkGet_length g s keys
  · simp only [hsBulkGet, bulk_get_impl, List.map_map,
      List.get?_eq_getElem?, List.getElem?_map]
    cases hk : keys[i]? with
    | none => rfl
    | some k =>
      have hmem : k ∈ keys := List.getElem?_mem hk
      have hcont : keys.contains k = true := List.elem_eq_true_of_mem hmem
      simp only [Option.map_some']
      rw [Function.comp_apply, find?_filter_contains s keys k hcont]
      simp only [selectValue]
      cases hf : s.find? (fun e => e.1 == k) with
      | none => rfl
      | some e => rfl

/-- Witness for C10 at a concrete input: empty store, one pair. -/
theorem C10_bulk_set_empty_raises_witness :
    (runProg (Prog.bulkSet [("a", 1)]) (initState ([] : Store Nat))).1
      = .normal :=
  (C10_bulk_set_empty_raises ([] : Store Nat)).2 [("a", 1)]
    (by simp)

theorem scanLoop_pagesize_zero_stuck :
    ∀ fuel : Nat,
      scanLoop (fun v : Nat => v) [("a", 1)] 0 "a" fuel = none := by
  intro fuel
  induction fuel with
  | zero => rfl
  | succ n ih =>
    simp only [scanLoop]
    have h1 : takeLimit ((0 : Int) + 1)
        (List.filter (fun e => sKeyLe "a" e.1) [(("a" : String), (1 : Nat))])
        = [("a", 1)] := rfl
    rw [h1]
    norm_num [ih]

/-- Claim C6 counterexample: with `pagesize = 0` the page query uses
`LIMIT 1`; on a non-empty store the page always has exactly one row, so
`len(page) < pagesize + 1` never holds, the popped row is immediately
re-fetched (the cursor never advances past it), and nothing is ever
yielded — `scan` loops forever.  Formally: no amount of fuel makes the
loop terminate on the one-entry store, so the claim's "terminates ...
regardless of page_size" is false at `pagesize = 0`. -/
theorem C6_counterexample_pagesize_zero :
    ¬ ∃ (fuel : Nat) (r : Except PyErr (List (String × Nat))),
        scan (fun v : Nat => v) [("a", 1)] 0 fuel = some r := by
  rintro ⟨fuel, r, h⟩
  cases fuel with
  | zero => exact nomatch h
  | succ n =>
    simp only [scan, scanLoop] at h
    have h1 : takeLimit ((0 : Int) + 1)
        (List.filter (fun e => sKeyLe "" e.1) [(("a" : String), (1 : Nat))])
        = [("a", 1)] := rfl
    rw [h1] at h
    norm_num [scanLoop_pagesize_zero_stuck n] at h
    exact nomatch h

/-- Claim C6 (corrected/amended): for every sorted store with `N` entries
and every `pagesize ≥ 1`, `scan(pagesize)` terminates — fuel `N + 1`
iterations of the page loop suffice — and yields exactly the `N`
(key, decoded value) pairs of the store in ascending key order.  (The
original claim's "regardless of page_size" fails: `pagesize = 0` loops
forever, see the counterexample.) -/
theorem C6_scan_complete_amended {V A : Type} (g : V → A) (s : Store V)
    (hs : StoreSorted s) (P : Nat) (hp : 1 ≤ P) :
    scan g s (P : Int) (s.length + 1)
      = some (.ok (s.map (fun e => (e.1, g e.2)))) := by
  have h := scanLoop_sorted_complete g s hs P hp (s.length + 1) ""
  rw [filter_le_empty_eq] at h
  rw [scan]
  exact h (Nat.lt_succ_self _)

/-- Witness for the amended C6 at a concrete input: a two-entry sorted
store and `pagesize = 1`. -/
theorem C6_scan_complete_amended_witness :
    scan (fun v : Nat => v) [("a", 1), ("b", 2)] ((1 : Nat) : Int)
        (([("a", 1), ("b", 2)] : Store Nat).length + 1)
      = some (.ok (([("a", 1), ("b", 2)] : Store Nat).map
          (fun e => (e.1, (fun v : Nat => v) e.2)))) :=
  C6_scan_complete_amended (fun v : Nat => v) [("a", 1), ("b", 2)]
    (by unfold StoreSorted; decide) 1 (by omega)

end HappyStore
